import Mathlib

/-!
Verification of the ChaCha20 XOR engine of `src/aead/chacha.rs`.

Bytes are embedded as `Nat` (values intended `< 256`), buffers as `List Nat`,
and 32-bit words as `Nat` reduced modulo `2 ^ 32` wherever the source performs
32-bit arithmetic.  The Rust functions `chacha20_xor_in_place`,
`chacha20_xor_overlapping` and `make_counter` are translated directly from the
source.  The assembly routine `GFp_ChaCha20_ctr32` and the `u32_from_le_u8`
polyfill are not part of the visible source tree, so they are modelled from the
specification (see the doc comments on those definitions).
-/

/-- Modelled from the spec: the 64-byte keystream block, the unit of the
Block Function's output and of counter increment (the spec's Block entry;
`block.rs` is not under `src/`). -/
def KS_BLOCK_LEN : Nat := 64

/-- Constant `KEY_BLOCKS` from the source. -/
def KEY_BLOCKS : Nat := 2

/-- Modelled from the spec: the AEAD block length used to size the key
(`block.rs` is not under `src/`); `KEY_LEN = KEY_BLOCKS * BLOCK_LEN = 32`,
matching the spec's 32-byte Key. -/
def BLOCK_LEN : Nat := 16

/-- Constant `KEY_LEN` from the source: `KEY_BLOCKS * BLOCK_LEN`. -/
def KEY_LEN : Nat := KEY_BLOCKS * BLOCK_LEN

/-- Constant `NONCE_LEN` from the source: 12 bytes (96 bits). -/
def NONCE_LEN : Nat := 12

/-- The `Counter` type from the source, `pub type Counter = [u32; 4]`:
four 32-bit words `[block-counter, nonce-word0, nonce-word1, nonce-word2]`. -/
structure Counter where
  w0 : Nat
  w1 : Nat
  w2 : Nat
  w3 : Nat
deriving DecidableEq

/-- Modelled from the spec: `u32_from_le_u8` (polyfill, not under `src/`),
decoding four bytes as a little-endian 32-bit integer. -/
def u32_from_le_u8 (b : List Nat) : Nat :=
  b.getD 0 0 + b.getD 1 0 * 2 ^ 8 + b.getD 2 0 * 2 ^ 16 + b.getD 3 0 * 2 ^ 24

/-- Function `make_counter` from the source: `[counter, word(nonce[0..4]),
word(nonce[4..8]), word(nonce[8..12])]`, each word little-endian. -/
def make_counter (nonce : List Nat) (counter : Nat) : Counter :=
  { w0 := counter
    w1 := u32_from_le_u8 ((nonce.drop 0).take 4)
    w2 := u32_from_le_u8 ((nonce.drop 4).take 4)
    w3 := u32_from_le_u8 ((nonce.drop 8).take 4) }

/-- 32-bit modular addition. -/
def add32 (a b : Nat) : Nat := (a + b) % 2 ^ 32

/-- 32-bit left rotation by `n` bits. -/
def rotl32 (x n : Nat) : Nat := (x <<< n) % 2 ^ 32 ||| (x % 2 ^ 32) >>> (32 - n)

/-- Modelled from the spec: the ChaCha20 quarter round (add-rotate-XOR with
rotation amounts 16, 12, 8, 7) acting on positions `a b c d` of the 16-word
state.  The block function lives in assembly outside `src/`. -/
def quarterRound (a b c d : Nat) (st : List Nat) : List Nat :=
  let xa := st.getD a 0
  let xb := st.getD b 0
  let xc := st.getD c 0
  let xd := st.getD d 0
  let xa := add32 xa xb
  let xd := rotl32 (Nat.xor xd xa) 16
  let xc := add32 xc xd
  let xb := rotl32 (Nat.xor xb xc) 12
  let xa := add32 xa xb
  let xd := rotl32 (Nat.xor xd xa) 8
  let xc := add32 xc xd
  let xb := rotl32 (Nat.xor xb xc) 7
  (((st.set a xa).set b xb).set c xc).set d xd

/-- Modelled from the spec: one double round — four column quarter rounds
followed by four diagonal quarter rounds. -/
def doubleRound (st : List Nat) : List Nat :=
  st |> quarterRound 0 4 8 12 |> quarterRound 1 5 9 13
     |> quarterRound 2 6 10 14 |> quarterRound 3 7 11 15
     |> quarterRound 0 5 10 15 |> quarterRound 1 6 11 12
     |> quarterRound 2 7 8 13 |> quarterRound 3 4 9 14

/-- The eight little-endian 32-bit words of the 32-byte key. -/
def keyWords (key : List Nat) : List Nat :=
  (List.range 8).map fun i => u32_from_le_u8 ((key.drop (4 * i)).take 4)

/-- Modelled from the spec: the initial 16-word ChaCha20 state — four fixed
constants, the eight key words, and the four counter words. -/
def initState (key : List Nat) (counter : Counter) : List Nat :=
  [0x61707865, 0x3320646e, 0x79622d32, 0x6b206574] ++ keyWords key ++
    [counter.w0 % 2 ^ 32, counter.w1 % 2 ^ 32, counter.w2 % 2 ^ 32, counter.w3 % 2 ^ 32]

/-- Serialize a list of 32-bit words as little-endian bytes. -/
def wordsToBytes (ws : List Nat) : List Nat :=
  ws.flatMap fun w => [w % 2 ^ 8, (w >>> 8) % 2 ^ 8, (w >>> 16) % 2 ^ 8, (w >>> 24) % 2 ^ 8]

/-- Modelled from the spec: the ChaCha20 block function — 10 double rounds,
feed-forward addition of the initial state, little-endian serialization. -/
def chacha20_block (key : List Nat) (counter : Counter) : List Nat :=
  let s0 := initState key counter
  wordsToBytes (List.zipWith add32 (doubleRound^[10] s0) s0)

/-- The per-block counter increment from the spec:
`next(counter) = [counter[0] + 1, counter[1], counter[2], counter[3]]`.
The overflow refusal in `GFp_ChaCha20_ctr32` guarantees the increment is
exact (never wraps) on every block actually consumed. -/
def incCounter (c : Counter) : Counter := { c with w0 := c.w0 + 1 }

/-- A counter advanced by `n` blocks. -/
def counterAdd (c : Counter) (n : Nat) : Counter := { c with w0 := c.w0 + n }

/-- Modelled from the spec: the keystream of a given byte length — successive
block-function outputs at successive counters, the final block truncated to
the residual byte count. -/
def keystreamBytes (key : List Nat) (counter : Counter) (len : Nat) : List Nat :=
  if _h : len = 0 then []
  else
    let c := min KS_BLOCK_LEN len
    (chacha20_block key counter).take c ++ keystreamBytes key (incCounter counter) (len - c)
termination_by len
decreasing_by simp only [KS_BLOCK_LEN]; omega

/-- The disjoint-buffer reference result: XOR of a frozen snapshot of the
input against the keystream, byte by byte. -/
def chacha20_xor_snapshot (key : List Nat) (counter : Counter) (input : List Nat) : List Nat :=
  List.zipWith Nat.xor input (keystreamBytes key counter input.length)

/-- Number of keystream blocks needed to cover `len` bytes. -/
def blocksNeeded (len : Nat) : Nat := (len + KS_BLOCK_LEN - 1) / KS_BLOCK_LEN

/-- Errors of the engine: the counter-overflow refusal demanded by the spec,
and the panic of the unchecked `usize` subtraction in
`chacha20_xor_overlapping`. -/
inductive ChaChaErr where
  | counterOverflow : ChaChaErr
  | usizeUnderflow : ChaChaErr
deriving DecidableEq

/-- Modelled from the spec: one pass of the chunk-wise XOR discipline of the
Buffer XOR Engine over a single memory buffer `mem`.  The input region starts
at `si`, the output region at `so`, both of length `len`; chunks are one block
long and processed in ascending order; each chunk's input bytes are copied to
a temporary before the chunk's output write. -/
def ctr32_chunks (key : List Nat) (counter : Counter) (mem : List Nat)
    (si so len : Nat) : List Nat :=
  if _h : len = 0 then mem
  else
    let c := min KS_BLOCK_LEN len
    let temp := (mem.drop si).take c
    let out := List.zipWith Nat.xor temp ((chacha20_block key counter).take c)
    let mem1 := mem.take so ++ out ++ mem.drop (so + c)
    ctr32_chunks key (incCounter counter) mem1 (si + c) (so + c) (len - c)
termination_by len
decreasing_by simp only [KS_BLOCK_LEN]; omega

/-- Modelled from the spec: the block-XOR routine `GFp_ChaCha20_ctr32`
(assembly, not under `src/`).  Per the spec's error design it refuses, before
writing any output, a request needing more blocks than remain before the
32-bit block counter overflows; otherwise it runs the chunk-wise XOR over the
buffer. -/
def GFp_ChaCha20_ctr32 (key : List Nat) (counter : Counter) (mem : List Nat)
    (si so len : Nat) : Except ChaChaErr (List Nat) :=
  if 2 ^ 32 - counter.w0 < blocksNeeded len then .error .counterOverflow
  else .ok (ctr32_chunks key counter mem si so len)

/-- Function `chacha20_xor_in_place` from the source: calls the block-XOR routine with
the input and output pointers both at the start of `in_out` and length
`in_out.len()`. -/
def chacha20_xor_in_place (key : List Nat) (counter : Counter) (in_out : List Nat) :
    Except ChaChaErr (List Nat) :=
  GFp_ChaCha20_ctr32 key counter in_out 0 0 in_out.length

/-- The `usize` subtraction `in_out.len() - in_prefix_len` of the source,
which panics when it would underflow. -/
def usize_sub (a b : Nat) : Except ChaChaErr Nat :=
  if b ≤ a then .ok (a - b) else .error .usizeUnderflow

/-- Function `chacha20_xor_overlapping` from the source.  `arch32` stands for
`cfg!(any(target_arch = "arm", target_arch = "x86"))`.  On those targets with
a nonzero prefix it copies the input region down to the start of the buffer
(`core::ptr::copy`) and XORs exactly in place; otherwise it hands the
overlapping pointers straight to the block-XOR routine. -/
def chacha20_xor_overlapping (arch32 : Bool) (key : List Nat) (counter : Counter)
    (in_out : List Nat) (in_prefix_len : Nat) : Except ChaChaErr (List Nat) := do
  let len ← usize_sub in_out.length in_prefix_len
  if arch32 && in_prefix_len != 0 then
    let copied := (in_out.drop in_prefix_len).take len ++ in_out.drop len
    let head ← chacha20_xor_in_place key counter (copied.take len)
    pure (head ++ copied.drop len)
  else
    GFp_ChaCha20_ctr32 key counter in_out in_prefix_len 0 len

/-! Length lemmas. -/

theorem KS_BLOCK_LEN_eq : KS_BLOCK_LEN = 64 := rfl

theorem length_quarterRound (a b c d : Nat) (st : List Nat) :
    (quarterRound a b c d st).length = st.length := by
  simp [quarterRound]

theorem length_doubleRound (st : List Nat) : (doubleRound st).length = st.length := by
  simp [doubleRound, length_quarterRound]

theorem length_doubleRound_iterate (n : Nat) (st : List Nat) :
    (doubleRound^[n] st).length = st.length := by
  induction n with
  | zero => rfl
  | succ n ih => rw [Function.iterate_succ_apply', length_doubleRound]; exact ih

theorem length_initState (key : List Nat) (counter : Counter) :
    (initState key counter).length = 16 := by
  simp [initState, keyWords]

theorem length_wordsToBytes (ws : List Nat) : (wordsToBytes ws).length = 4 * ws.length := by
  induction ws with
  | nil => rfl
  | cons w ws ih => simp [wordsToBytes] at *; omega

theorem length_chacha20_block (key : List Nat) (counter : Counter) :
    (chacha20_block key counter).length = 64 := by
  rw [chacha20_block, length_wordsToBytes, List.length_zipWith,
    length_doubleRound_iterate, length_initState]
  norm_num

theorem keystreamBytes_zero (key : List Nat) (counter : Counter) :
    keystreamBytes key counter 0 = [] := by
  rw [keystreamBytes]
  rfl

theorem keystreamBytes_pos (key : List Nat) (counter : Counter) (len : Nat) (h : len ≠ 0) :
    keystreamBytes key counter len =
      (chacha20_block key counter).take (min KS_BLOCK_LEN len) ++
        keystreamBytes key (incCounter counter) (len - min KS_BLOCK_LEN len) := by
  rw [keystreamBytes]
  simp [h]

theorem length_keystreamBytes (key : List Nat) :
    ∀ len counter, (keystreamBytes key counter len).length = len := by
  intro len
  induction len using Nat.strong_induction_on with
  | _ len ih =>
    intro counter
    by_cases h : len = 0
    · subst h; rw [keystreamBytes_zero]; rfl
    · rw [keystreamBytes_pos key counter len h]
      have hb := length_chacha20_block key counter
      have hk : KS_BLOCK_LEN = 64 := rfl
      rw [List.length_append, List.length_take, hb, ih (len - min KS_BLOCK_LEN len) (by omega)]
      omega

/-! Keystream lemmas. -/

theorem take_keystreamBytes (key : List Nat) :
    ∀ len p counter, p ≤ len →
      (keystreamBytes key counter len).take p = keystreamBytes key counter p := by
  intro len
  induction len using Nat.strong_induction_on with
  | _ len ih =>
    intro p counter hp
    by_cases h : len = 0
    · subst h
      have hp0 : p = 0 := by omega
      subst hp0
      rw [keystreamBytes_zero]
      rfl
    · by_cases hp0 : p = 0
      · subst hp0
        rw [keystreamBytes_zero]
        rfl
      · rw [keystreamBytes_pos key counter len h, keystreamBytes_pos key counter p hp0]
        have hk : KS_BLOCK_LEN = 64 := rfl
        have hb := length_chacha20_block key counter
        by_cases hsmall : p ≤ 64
        · have hmp : min KS_BLOCK_LEN p = p := by rw [hk]; omega
          have hmlp : p ≤ min KS_BLOCK_LEN len := by rw [hk]; omega
          rw [hmp, Nat.sub_self, keystreamBytes_zero, List.append_nil,
            List.take_append_of_le_length (by rw [List.length_take]; omega),
            List.take_take]
          have : min p (min KS_BLOCK_LEN len) = p := by rw [hk]; rw [hk] at hmlp; omega
          rw [this]
        · have hml : min KS_BLOCK_LEN len = 64 := by rw [hk]; omega
          have hmp : min KS_BLOCK_LEN p = 64 := by rw [hk]; omega
          rw [hml, hmp]
          rw [List.take_append_eq_append_take]
          have h2 : min p 64 = 64 := by omega
          rw [List.take_take, h2]
          rw [List.length_take, hb]
          have h5 : p - min 64 64 = p - 64 := by omega
          rw [h5]
          rw [ih (len - 64) (by omega) (p - 64) (incCounter counter) (by omega)]

theorem keystreamBytes_block_split (key : List Nat) :
    ∀ n m counter, keystreamBytes key counter (64 * n + m) =
      keystreamBytes key counter (64 * n) ++ keystreamBytes key (counterAdd counter n) m := by
  intro n
  induction n with
  | zero =>
    intro m counter
    simp only [Nat.mul_zero, Nat.zero_add, keystreamBytes_zero, List.nil_append]
    rfl
  | succ n ih =>
    intro m counter
    have hk : KS_BLOCK_LEN = 64 := rfl
    have h1 : 64 * (n + 1) + m = 64 + (64 * n + m) := by ring
    have h2 : 64 * (n + 1) = 64 + 64 * n := by ring
    rw [h1, h2, keystreamBytes_pos key counter _ (by omega),
      keystreamBytes_pos key counter _ (by omega)]
    have hmin1 : min KS_BLOCK_LEN (64 + (64 * n + m)) = 64 := by rw [hk]; omega
    have hmin2 : min KS_BLOCK_LEN (64 + 64 * n) = 64 := by rw [hk]; omega
    rw [hmin1, hmin2]
    have h3 : 64 + (64 * n + m) - 64 = 64 * n + m := by omega
    have h4 : 64 + 64 * n - 64 = 64 * n := by omega
    rw [h3, h4, ih m (incCounter counter), List.append_assoc]
    have h5 : counterAdd (incCounter counter) n = counterAdd counter (n + 1) := by
      simp only [counterAdd, incCounter]
      congr 1
      omega
    rw [h5]

theorem zipWith_xor_cancel : ∀ (a b : List Nat), a.length ≤ b.length →
    List.zipWith Nat.xor (List.zipWith Nat.xor a b) b = a := by
  intro a
  induction a with
  | nil => intro b _; rfl
  | cons x xs ih =>
    intro b hb
    cases b with
    | nil => simp at hb
    | cons y ys =>
      simp only [List.zipWith_cons_cons, List.length_cons] at *
      have hx : Nat.xor (Nat.xor x y) y = x := Nat.xor_cancel_right y x
      rw [hx, ih ys (by omega)]

/-! The chunk-engine characterization. -/

theorem ctr32_chunks_zero (key : List Nat) (counter : Counter) (mem : List Nat) (si so : Nat) :
    ctr32_chunks key counter mem si so 0 = mem := by
  rw [ctr32_chunks]
  rfl

theorem ctr32_chunks_pos (key : List Nat) (counter : Counter) (mem : List Nat)
    (si so len : Nat) (h : len ≠ 0) :
    ctr32_chunks key counter mem si so len =
      ctr32_chunks key (incCounter counter)
        (mem.take so ++
          List.zipWith Nat.xor ((mem.drop si).take (min KS_BLOCK_LEN len))
            ((chacha20_block key counter).take (min KS_BLOCK_LEN len)) ++
          mem.drop (so + min KS_BLOCK_LEN len))
        (si + min KS_BLOCK_LEN len) (so + min KS_BLOCK_LEN len) (len - min KS_BLOCK_LEN len) := by
  rw [ctr32_chunks]
  simp [h]

theorem ctr32_chunks_spec (key : List Nat) :
    ∀ len counter (mem : List Nat) si so, so ≤ si → si + len ≤ mem.length →
      ctr32_chunks key counter mem si so len =
        mem.take so ++
          List.zipWith Nat.xor ((mem.drop si).take len) (keystreamBytes key counter len) ++
          mem.drop (so + len) := by
  intro len
  induction len using Nat.strong_induction_on with
  | _ len ih =>
    intro counter mem si so hso hsi
    by_cases h : len = 0
    · subst h
      rw [ctr32_chunks_zero, keystreamBytes_zero, List.zipWith_nil_right, Nat.add_zero,
        List.append_nil, List.take_append_drop]
    · have hk : KS_BLOCK_LEN = 64 := rfl
      set c := min KS_BLOCK_LEN len with hc
      have hc1 : 1 ≤ c := by rw [hc, hk]; omega
      have hcle : c ≤ len := by rw [hc]; omega
      have hc64 : c ≤ 64 := by rw [hc, hk]; omega
      have hb := length_chacha20_block key counter
      have htemp : ((mem.drop si).take c).length = c := by
        rw [List.length_take, List.length_drop]
        omega
      have hkslen : ((chacha20_block key counter).take c).length = c := by
        rw [List.length_take, hb]
        omega
      have hout : (List.zipWith Nat.xor ((mem.drop si).take c)
          ((chacha20_block key counter).take c)).length = c := by
        rw [List.length_zipWith, htemp, hkslen]
        omega
      have hpfx : (mem.take so ++ List.zipWith Nat.xor ((mem.drop si).take c)
          ((chacha20_block key counter).take c)).length = so + c := by
        rw [List.length_append, List.length_take, hout]
        have : so ≤ mem.length := by omega
        omega
      rw [ctr32_chunks_pos key counter mem si so len h]
      rw [← hc]
      have hmem1len : (mem.take so ++ List.zipWith Nat.xor ((mem.drop si).take c)
            ((chacha20_block key counter).take c) ++ mem.drop (so + c)).length = mem.length := by
        rw [List.length_append, hpfx, List.length_drop]
        omega
      rw [ih (len - c) (by omega) (incCounter counter) _ (si + c) (so + c)
        (by omega) (by rw [hmem1len]; omega)]
      -- now rewrite the three pieces of the updated memory
      have hA : ((mem.take so ++ List.zipWith Nat.xor ((mem.drop si).take c)
            ((chacha20_block key counter).take c) ++ mem.drop (so + c)).take (so + c)) =
          mem.take so ++ List.zipWith Nat.xor ((mem.drop si).take c)
            ((chacha20_block key counter).take c) := by
        rw [List.take_append_of_le_length (by rw [hpfx])]
        rw [List.take_of_length_le (by rw [hpfx])]
      have hB : ∀ i, so + c ≤ i → ((mem.take so ++ List.zipWith Nat.xor ((mem.drop si).take c)
            ((chacha20_block key counter).take c) ++ mem.drop (so + c)).drop i) = mem.drop i := by
        intro i hi
        rw [List.drop_append_eq_append_drop, hpfx,
          List.drop_eq_nil_of_le (by rw [hpfx]; omega), List.nil_append, List.drop_drop]
        have h1 : so + c + (i - (so + c)) = i := by omega
        rw [h1]
      rw [hB (si + c) (by omega), hB (so + c + (len - c)) (by omega), hA]
      have hCend : so + c + (len - c) = so + len := by omega
      rw [hCend]
      -- split the snapshot input and the keystream at the chunk boundary
      have hinput : (mem.drop si).take len =
          (mem.drop si).take c ++ ((mem.drop (si + c)).take (len - c)) := by
        have h1 : len = c + (len - c) := by omega
        conv_lhs => rw [h1]
        rw [List.take_add, List.drop_drop]
      have hks : keystreamBytes key counter len =
          (chacha20_block key counter).take c ++
            keystreamBytes key (incCounter counter) (len - c) := by
        rw [keystreamBytes_pos key counter len h, ← hc]
      conv_rhs => rw [hinput, hks]
      rw [List.zipWith_append _ _ _ _ _ (by rw [htemp, hkslen])]
      simp [List.append_assoc]

/-! Engine-level characterizations. -/

theorem chacha20_xor_in_place_ok (key : List Nat) (counter : Counter) (input : List Nat)
    (hov : ¬ 2 ^ 32 - counter.w0 < blocksNeeded input.length) :
    chacha20_xor_in_place key counter input =
      .ok (chacha20_xor_snapshot key counter input) := by
  rw [chacha20_xor_in_place, GFp_ChaCha20_ctr32, if_neg hov,
    ctr32_chunks_spec key input.length counter input 0 0 (by omega) (by omega)]
  rw [chacha20_xor_snapshot]
  simp

theorem drop_take_extract (in_out : List Nat) (p : Nat) :
    (in_out.drop p).take (in_out.length - p) = in_out.drop p := by
  apply List.take_of_length_le
  rw [List.length_drop]

theorem chacha20_xor_overlapping_ok (arch32 : Bool) (key : List Nat) (counter : Counter)
    (in_out : List Nat) (p : Nat) (hp : p ≤ in_out.length)
    (hov : ¬ 2 ^ 32 - counter.w0 < blocksNeeded (in_out.length - p)) :
    chacha20_xor_overlapping arch32 key counter in_out p =
      .ok (chacha20_xor_snapshot key counter (in_out.drop p) ++
        in_out.drop (in_out.length - p)) := by
  rw [chacha20_xor_overlapping]
  rw [usize_sub, if_pos hp]
  by_cases hbr : (arch32 && p != 0) = true
  · simp only [bind, Except.bind, hbr, if_true]
    have hlen2 : (in_out.drop p).length = in_out.length - p := by rw [List.length_drop]
    rw [drop_take_extract in_out p, List.take_left' hlen2, List.drop_left' hlen2]
    rw [chacha20_xor_in_place_ok key counter (in_out.drop p)
      (by rw [List.length_drop]; exact hov)]
    rfl
  · simp only [bind, Except.bind, hbr, if_false]
    rw [GFp_ChaCha20_ctr32, if_neg hov,
      ctr32_chunks_spec key (in_out.length - p) counter in_out p 0 (by omega) (by omega)]
    rw [chacha20_xor_snapshot, List.length_drop, drop_take_extract in_out p]
    simp

theorem length_chacha20_xor_snapshot (key : List Nat) (counter : Counter) (input : List Nat) :
    (chacha20_xor_snapshot key counter input).length = input.length := by
  rw [chacha20_xor_snapshot, List.length_zipWith, length_keystreamBytes]
  omega

theorem chacha20_xor_overlapping_overflow (arch32 : Bool) (key : List Nat) (counter : Counter)
    (in_out : List Nat) (p : Nat) (hp : p ≤ in_out.length)
    (hov : 2 ^ 32 - counter.w0 < blocksNeeded (in_out.length - p)) :
    chacha20_xor_overlapping arch32 key counter in_out p = .error .counterOverflow := by
  rw [chacha20_xor_overlapping, usize_sub, if_pos hp]
  by_cases hbr : (arch32 && p != 0) = true
  · simp only [bind, Except.bind, hbr, if_true]
    have hlen2 : (in_out.drop p).length = in_out.length - p := by rw [List.length_drop]
    rw [drop_take_extract in_out p, List.take_left' hlen2]
    rw [chacha20_xor_in_place, GFp_ChaCha20_ctr32, List.length_drop, if_pos hov]
  · simp only [bind, Except.bind, hbr, if_false]
    rw [GFp_ChaCha20_ctr32, if_pos hov]
    simp

theorem blocksNeeded_mono {a b : Nat} (h : a ≤ b) : blocksNeeded a ≤ blocksNeeded b := by
  rw [blocksNeeded, blocksNeeded]
  apply Nat.div_le_div_right
  omega

theorem blocksNeeded_block_add (n m : Nat) :
    blocksNeeded (64 * n + m) = n + blocksNeeded m := by
  rw [blocksNeeded, blocksNeeded, KS_BLOCK_LEN_eq]
  omega

/-! The claims. -/

/-- Claim C1: for every key, counter, buffer and overlap geometry expressible
through the engine's interface (`in_prefix_len` ranging from 0, identical
regions, up to the buffer length, the input region ahead of the output region
by that many bytes), on either branch of the architecture switch, the XOR
engine's output is byte-identical to the result of XORing the keystream
against a frozen snapshot of the input — the disjoint-buffer result for the
same logical input — and the trailing bytes of the buffer are unchanged. -/
theorem chacha20_overlap_invariance (arch32 : Bool) (key : List Nat) (counter : Counter)
    (in_out : List Nat) (p : Nat) (hp : p ≤ in_out.length)
    (hov : ¬ 2 ^ 32 - counter.w0 < blocksNeeded (in_out.length - p)) :
    chacha20_xor_overlapping arch32 key counter in_out p =
      .ok (chacha20_xor_snapshot key counter (in_out.drop p) ++
        in_out.drop (in_out.length - p)) :=
  chacha20_xor_overlapping_ok arch32 key counter in_out p hp hov

/-- Concrete instance of the C1 theorem: a 2-byte buffer with a 1-byte
overlap offset on the 32-bit-architecture branch. -/
theorem chacha20_overlap_invariance_witness :
    chacha20_xor_overlapping true (List.replicate 32 0) ⟨0, 0, 0, 0⟩ [1, 2] 1 =
      .ok (chacha20_xor_snapshot (List.replicate 32 0) ⟨0, 0, 0, 0⟩ (List.drop 1 [1, 2]) ++
        List.drop ([1, 2].length - 1) [1, 2]) :=
  chacha20_overlap_invariance true (List.replicate 32 0) ⟨0, 0, 0, 0⟩ [1, 2] 1
    (by decide) (by decide)

/-- Claim C2: the two branches of `chacha20_xor_overlapping` are equivalent —
for every key, counter, buffer and `in_prefix_len ≤ in_out.len()`, the
x86/ARM path (copy the input region down to the start, then XOR in place)
produces exactly the same buffer as the direct path that hands the
overlapping pointers to the block-XOR routine. -/
theorem chacha20_overlapping_branches_agree (key : List Nat) (counter : Counter)
    (in_out : List Nat) (p : Nat) (hp : p ≤ in_out.length) :
    chacha20_xor_overlapping true key counter in_out p =
      chacha20_xor_overlapping false key counter in_out p := by
  by_cases hov : 2 ^ 32 - counter.w0 < blocksNeeded (in_out.length - p)
  · rw [chacha20_xor_overlapping_overflow true key counter in_out p hp hov,
      chacha20_xor_overlapping_overflow false key counter in_out p hp hov]
  · rw [chacha20_xor_overlapping_ok true key counter in_out p hp hov,
      chacha20_xor_overlapping_ok false key counter in_out p hp hov]

/-- Concrete instance of the C2 theorem. -/
theorem chacha20_overlapping_branches_agree_witness :
    chacha20_xor_overlapping true (List.replicate 32 0) ⟨0, 0, 0, 0⟩ [7, 9, 11] 2 =
      chacha20_xor_overlapping false (List.replicate 32 0) ⟨0, 0, 0, 0⟩ [7, 9, 11] 2 :=
  chacha20_overlapping_branches_agree (List.replicate 32 0) ⟨0, 0, 0, 0⟩ [7, 9, 11] 2
    (by decide)

/-- Claim C3: XOR is self-inverse — for every key, counter (embedding the
nonce) and input, applying the XOR engine twice with the same key and
counter recovers the original input. -/
theorem chacha20_xor_involution (key : List Nat) (counter : Counter) (input : List Nat)
    (hov : ¬ 2 ^ 32 - counter.w0 < blocksNeeded input.length) :
    ∃ mid, chacha20_xor_in_place key counter input = .ok mid ∧
      chacha20_xor_in_place key counter mid = .ok input := by
  refine ⟨chacha20_xor_snapshot key counter input,
    chacha20_xor_in_place_ok key counter input hov, ?_⟩
  have hlen := length_chacha20_xor_snapshot key counter input
  rw [chacha20_xor_in_place_ok key counter _ (by rw [hlen]; exact hov)]
  have hdouble : chacha20_xor_snapshot key counter (chacha20_xor_snapshot key counter input) =
      input := by
    rw [chacha20_xor_snapshot, hlen, chacha20_xor_snapshot]
    exact zipWith_xor_cancel input _ (by rw [length_keystreamBytes])
  rw [hdouble]

/-- Concrete instance of the C3 theorem. -/
theorem chacha20_xor_involution_witness :
    ∃ mid, chacha20_xor_in_place (List.replicate 32 0) ⟨0, 0, 0, 0⟩ [1, 2, 3] = .ok mid ∧
      chacha20_xor_in_place (List.replicate 32 0) ⟨0, 0, 0, 0⟩ mid = .ok [1, 2, 3] :=
  chacha20_xor_involution (List.replicate 32 0) ⟨0, 0, 0, 0⟩ [1, 2, 3] (by decide)

/-- Claim C4: when the requested length needs more keystream blocks than
remain before the 32-bit block counter would wrap, the engine refuses with a
hard error, producing no output bytes, instead of silently wrapping the
counter and reusing keystream. -/
theorem chacha20_counter_overflow_refusal (key : List Nat) (counter : Counter)
    (input : List Nat)
    (hov : 2 ^ 32 - counter.w0 < blocksNeeded input.length) :
    chacha20_xor_in_place key counter input = .error .counterOverflow := by
  rw [chacha20_xor_in_place, GFp_ChaCha20_ctr32, if_pos hov]

set_option maxRecDepth 4000 in
/-- Concrete instance of the C4 theorem: at counter word `2^32 - 1` a
two-block request must be refused. -/
theorem chacha20_counter_overflow_refusal_witness :
    chacha20_xor_in_place (List.replicate 32 0) ⟨4294967295, 0, 0, 0⟩ (List.replicate 65 0) =
      .error .counterOverflow :=
  chacha20_counter_overflow_refusal (List.replicate 32 0) ⟨4294967295, 0, 0, 0⟩
    (List.replicate 65 0) (by decide)

/-- The little-endian 32-bit word formed from the four bytes of a buffer at
offset `i`, written from the spec's Counter/State Builder contract. -/
def leWordAt (b : List Nat) (i : Nat) : Nat :=
  b.getD i 0 + b.getD (i + 1) 0 * 2 ^ 8 + b.getD (i + 2) 0 * 2 ^ 16 + b.getD (i + 3) 0 * 2 ^ 24

/-- Claim C5: for every 12-byte nonce and 32-bit starting counter,
`make_counter` returns the four-word counter
`[starting_counter, word(nonce[0:4]), word(nonce[4:8]), word(nonce[8:12])]`,
each nonce word decoded as a little-endian 32-bit integer. -/
theorem getD_take_drop (nonce : List Nat) (k j : Nat) (hj : j < 4) :
    ((nonce.drop k).take 4).getD j 0 = nonce.getD (k + j) 0 := by
  rw [List.getD_eq_getElem?_getD, List.getD_eq_getElem?_getD, List.getElem?_take, if_pos hj,
    List.getElem?_drop]

theorem make_counter_spec (nonce : List Nat) (counter : Nat) (_h : nonce.length = NONCE_LEN) :
    make_counter nonce counter =
      ⟨counter, leWordAt nonce 0, leWordAt nonce 4, leWordAt nonce 8⟩ := by
  rw [make_counter]
  simp only [Counter.mk.injEq, u32_from_le_u8, leWordAt,
    getD_take_drop nonce 0 0 (by omega), getD_take_drop nonce 0 1 (by omega),
    getD_take_drop nonce 0 2 (by omega), getD_take_drop nonce 0 3 (by omega),
    getD_take_drop nonce 4 0 (by omega), getD_take_drop nonce 4 1 (by omega),
    getD_take_drop nonce 4 2 (by omega), getD_take_drop nonce 4 3 (by omega),
    getD_take_drop nonce 8 0 (by omega), getD_take_drop nonce 8 1 (by omega),
    getD_take_drop nonce 8 2 (by omega), getD_take_drop nonce 8 3 (by omega)]

/-- Concrete instance of the C5 theorem. -/
theorem make_counter_spec_witness :
    make_counter [1, 2, 3, 4, 5, 6, 7, 8, 9, 10, 11, 12] 42 =
      ⟨42, leWordAt [1, 2, 3, 4, 5, 6, 7, 8, 9, 10, 11, 12] 0,
        leWordAt [1, 2, 3, 4, 5, 6, 7, 8, 9, 10, 11, 12] 4,
        leWordAt [1, 2, 3, 4, 5, 6, 7, 8, 9, 10, 11, 12] 8⟩ :=
  make_counter_spec [1, 2, 3, 4, 5, 6, 7, 8, 9, 10, 11, 12] 42 (by decide)

/-- Claim C6: prefix consistency — for every key, counter, input of length
`L` and prefix length `P ≤ L`, the first `P` bytes of the output of the
length-`L` XOR call equal the full output of an XOR call made with only the
first `P` input bytes and the same counter. -/
theorem chacha20_prefix_consistency (key : List Nat) (counter : Counter)
    (input : List Nat) (P : Nat) (hP : P ≤ input.length)
    (hov : ¬ 2 ^ 32 - counter.w0 < blocksNeeded input.length) :
    ∃ out, chacha20_xor_in_place key counter input = .ok out ∧
      chacha20_xor_in_place key counter (input.take P) = .ok (out.take P) := by
  refine ⟨chacha20_xor_snapshot key counter input,
    chacha20_xor_in_place_ok key counter input hov, ?_⟩
  have hlt : (input.take P).length = P := by rw [List.length_take]; omega
  have hov2 : ¬ 2 ^ 32 - counter.w0 < blocksNeeded (input.take P).length := by
    have hm : blocksNeeded (input.take P).length ≤ blocksNeeded input.length :=
      blocksNeeded_mono (by rw [hlt]; omega)
    omega
  rw [chacha20_xor_in_place_ok key counter (input.take P) hov2]
  have hsnap : chacha20_xor_snapshot key counter (input.take P) =
      (chacha20_xor_snapshot key counter input).take P := by
    rw [chacha20_xor_snapshot, chacha20_xor_snapshot, List.take_zipWith, hlt,
      take_keystreamBytes key input.length P counter hP]
  rw [hsnap]

/-- Concrete instance of the C6 theorem. -/
theorem chacha20_prefix_consistency_witness :
    ∃ out, chacha20_xor_in_place (List.replicate 32 0) ⟨0, 0, 0, 0⟩ [4, 5, 6] = .ok out ∧
      chacha20_xor_in_place (List.replicate 32 0) ⟨0, 0, 0, 0⟩ ([4, 5, 6].take 2) =
        .ok (out.take 2) :=
  chacha20_prefix_consistency (List.replicate 32 0) ⟨0, 0, 0, 0⟩ [4, 5, 6] 2
    (by decide) (by decide)

/-- Claim C7: counter increment correctness — consuming `N` full 64-byte
blocks advances the effective counter by exactly `N`: splitting one XOR call
at a block boundary into a call on the first `N` blocks at counter `c` and a
call on the remainder at counter `c + N` yields the same bytes as the single
call. -/
theorem chacha20_counter_increment_split (key : List Nat) (counter : Counter)
    (a b : List Nat) (N : Nat) (ha : a.length = 64 * N)
    (hov : ¬ 2 ^ 32 - counter.w0 < blocksNeeded (a ++ b).length) :
    ∃ oa ob, chacha20_xor_in_place key counter a = .ok oa ∧
      chacha20_xor_in_place key (counterAdd counter N) b = .ok ob ∧
      chacha20_xor_in_place key counter (a ++ b) = .ok (oa ++ ob) := by
  have hlab : (a ++ b).length = 64 * N + b.length := by
    rw [List.length_append, ha]
  have hbn : blocksNeeded (a ++ b).length = N + blocksNeeded b.length := by
    rw [hlab, blocksNeeded_block_add]
  have hova : ¬ 2 ^ 32 - counter.w0 < blocksNeeded a.length := by
    have h1 : blocksNeeded a.length ≤ blocksNeeded (a ++ b).length :=
      blocksNeeded_mono (by rw [List.length_append]; omega)
    omega
  have hovb : ¬ 2 ^ 32 - (counterAdd counter N).w0 < blocksNeeded b.length := by
    show ¬ 2 ^ 32 - (counter.w0 + N) < blocksNeeded b.length
    omega
  refine ⟨chacha20_xor_snapshot key counter a,
    chacha20_xor_snapshot key (counterAdd counter N) b,
    chacha20_xor_in_place_ok key counter a hova,
    chacha20_xor_in_place_ok key (counterAdd counter N) b hovb, ?_⟩
  rw [chacha20_xor_in_place_ok key counter (a ++ b) hov]
  have hsplit : chacha20_xor_snapshot key counter (a ++ b) =
      chacha20_xor_snapshot key counter a ++
        chacha20_xor_snapshot key (counterAdd counter N) b := by
    rw [chacha20_xor_snapshot, chacha20_xor_snapshot, chacha20_xor_snapshot, hlab,
      keystreamBytes_block_split key N b.length counter, ha,
      List.zipWith_append _ _ _ _ _ (by rw [ha, length_keystreamBytes])]
  rw [hsplit]

set_option maxRecDepth 4000 in
/-- Concrete instance of the C7 theorem: one full block plus one byte. -/
theorem chacha20_counter_increment_split_witness :
    ∃ oa ob, chacha20_xor_in_place (List.replicate 32 0) ⟨0, 0, 0, 0⟩
        (List.replicate 64 7) = .ok oa ∧
      chacha20_xor_in_place (List.replicate 32 0) (counterAdd ⟨0, 0, 0, 0⟩ 1) [9] = .ok ob ∧
      chacha20_xor_in_place (List.replicate 32 0) ⟨0, 0, 0, 0⟩
        (List.replicate 64 7 ++ [9]) = .ok (oa ++ ob) :=
  chacha20_counter_increment_split (List.replicate 32 0) ⟨0, 0, 0, 0⟩
    (List.replicate 64 7) [9] 1 (by decide) (by decide)

/-- Claim C8: determinism — for a fixed key, counter (embedding the nonce)
and input, any two calls to the XOR engine produce identical results; the
engine's outcome is a function of those arguments alone, with no hidden
state (the source function reads only its borrowed key, counter and buffer,
and the embedding is a pure function of them). -/
theorem chacha20_xor_deterministic (key : List Nat) (counter : Counter) (input : List Nat)
    (r1 r2 : Except ChaChaErr (List Nat))
    (h1 : chacha20_xor_in_place key counter input = r1)
    (h2 : chacha20_xor_in_place key counter input = r2) : r1 = r2 :=
  h1.symm.trans h2

/-- Concrete instance of the C8 theorem: two runs on the same one-byte
input yield the same result. -/
theorem chacha20_xor_deterministic_witness :
    (Except.ok (chacha20_xor_snapshot (List.replicate 32 0) ⟨0, 0, 0, 0⟩ [1]) :
        Except ChaChaErr (List Nat)) =
      .ok (chacha20_xor_snapshot (List.replicate 32 0) ⟨0, 0, 0, 0⟩ [1]) :=
  chacha20_xor_deterministic (List.replicate 32 0) ⟨0, 0, 0, 0⟩ [1] _ _
    (chacha20_xor_in_place_ok (List.replicate 32 0) ⟨0, 0, 0, 0⟩ [1] (by decide))
    (chacha20_xor_in_place_ok (List.replicate 32 0) ⟨0, 0, 0, 0⟩ [1] (by decide))

/-- Claim C9: frame property — the engine writes exactly the designated
output region `in_out[..len]` with `len = in_out.len() - in_prefix_len`
(its length equals the logical input's length), every byte of `in_out` at
index at least `len` is unchanged, and the whole buffer keeps its length
(nothing outside it is touched). -/
theorem chacha20_frame_property (arch32 : Bool) (key : List Nat) (counter : Counter)
    (in_out : List Nat) (p : Nat) (hp : p ≤ in_out.length)
    (hov : ¬ 2 ^ 32 - counter.w0 < blocksNeeded (in_out.length - p)) :
    ∃ r, chacha20_xor_overlapping arch32 key counter in_out p = .ok r ∧
      r.length = in_out.length ∧
      r.drop (in_out.length - p) = in_out.drop (in_out.length - p) ∧
      (r.take (in_out.length - p)).length = (in_out.drop p).length := by
  refine ⟨_, chacha20_xor_overlapping_ok arch32 key counter in_out p hp hov, ?_, ?_, ?_⟩
  · rw [List.length_append, length_chacha20_xor_snapshot, List.length_drop,
      List.length_drop]
    omega
  · exact List.drop_left' (by rw [length_chacha20_xor_snapshot, List.length_drop])
  · rw [List.take_left' (by rw [length_chacha20_xor_snapshot, List.length_drop]),
      length_chacha20_xor_snapshot]

/-- Concrete instance of the C9 theorem. -/
theorem chacha20_frame_property_witness :
    ∃ r, chacha20_xor_overlapping false (List.replicate 32 0) ⟨0, 0, 0, 0⟩ [3, 4, 5] 2 =
        .ok r ∧
      r.length = [3, 4, 5].length ∧
      r.drop ([3, 4, 5].length - 2) = [3, 4, 5].drop ([3, 4, 5].length - 2) ∧
      (r.take ([3, 4, 5].length - 2)).length = ([3, 4, 5].drop 2).length :=
  chacha20_frame_property false (List.replicate 32 0) ⟨0, 0, 0, 0⟩ [3, 4, 5] 2
    (by decide) (by decide)

/-- Claim C10: `in_prefix_len ≤ in_out.len()` is exactly the precondition
under which `chacha20_xor_overlapping`'s length computation
`in_out.len() - in_prefix_len` does not underflow: with it the call never
hits the underflow panic, and when it is violated the unchecked subtraction
underflows and the call aborts before doing anything else. -/
theorem chacha20_overlapping_underflow_guard (arch32 : Bool) (key : List Nat)
    (counter : Counter) (in_out : List Nat) (p : Nat) :
    p ≤ in_out.length ↔
      chacha20_xor_overlapping arch32 key counter in_out p ≠ .error .usizeUnderflow := by
  constructor
  · intro hp
    by_cases hov : 2 ^ 32 - counter.w0 < blocksNeeded (in_out.length - p)
    · rw [chacha20_xor_overlapping_overflow arch32 key counter in_out p hp hov]
      simp
    · rw [chacha20_xor_overlapping_ok arch32 key counter in_out p hp hov]
      simp
  · intro hne
    by_contra hgt
    apply hne
    rw [chacha20_xor_overlapping, usize_sub, if_neg hgt]
    rfl
